import Mathlib

/-
Verification of the boost-vault "Idioms" headers.

Source files embedded here:
  * custom_ops.hpp — the (almost) custom-operator facility: eight tag
    structs, the `tag_from_op` factory object, the `wrapped<T, Tag>`
    nesting template with `unwrap`, the `type_finder_impl` chain and the
    generic wrapping unary operators, and the `BOOST_CUSTOM_OP` macro.
  * the predicated-constructor header — `predicated_constructee_storage<T>`
    and the `BOOST_PREDICATED_[ANONYMOUS_]CONSTRUCTOR` macros.

C++ types are embedded as an inductive `CType`; the eight unary-operator
characters and the eight tag structs are finite inductives; runtime
wrapped values carry their static type and the stored `value` field
explicitly.
-/

/-- The eight supported prefix unary operator characters of custom_ops.hpp:
`+ - & * ++ -- ! ~` (the list iterated by BOOST_COPS_ITERATE_OPS). -/
inductive UnaryOp where
  | plus
  | minus
  | amp
  | asterisk
  | increment
  | decrement
  | excl
  | tilde
  deriving DecidableEq, Fintype

/-- The eight empty tag structs declared at the top of
namespace boost::custom_ops. Each is a nominally distinct C++ type. -/
inductive OpTag where
  | plus_tag
  | minus_tag
  | amp_tag
  | asterisk_tag
  | increment_tag
  | decrement_tag
  | excl_tag
  | tilde_tag
  deriving DecidableEq, Fintype

/-- The anonymous struct object `tag_from_op`: applying a unary operator
character to it yields a value of the corresponding tag type.
`BOOST_COPS_OPTAG(OP)` is `BOOST_TYPEOF(OP tag_from_op)`, i.e. exactly
this mapping at the type level. -/
def tag_from_op : UnaryOp → OpTag
  | .plus => .plus_tag
  | .minus => .minus_tag
  | .amp => .amp_tag
  | .asterisk => .asterisk_tag
  | .increment => .increment_tag
  | .decrement => .decrement_tag
  | .excl => .excl_tag
  | .tilde => .tilde_tag

/-- C++ types as far as the facility distinguishes them: an ordinary
(non-wrapped) type named by a string, or an instantiation
`wrapped<T, Tag>` of the template `wrapped` from custom_ops.hpp. -/
inductive CType where
  | base (name : String)
  | wrapped (T : CType) (tag : OpTag)
  deriving DecidableEq

/-- Whether a C++ type is an instantiation of the `wrapped` template. -/
def isWrapped : CType → Bool
  | .wrapped _ _ => true
  | .base _ => false

/-- The `unwrap` metafunction of custom_ops.hpp: the primary template
maps any non-wrapped `W` to itself, and the partial specialization maps
`wrapped<W, Tag>` to `unwrap<W>::type`. -/
def unwrap : CType → CType
  | .base n => .base n
  | .wrapped W _ => unwrap W

/-- The nested typedef `wrapped<T, Tag>::type`, which the source defines
as `typename unwrap<T>::type` (the Tag parameter does not participate). -/
def wrappedTypeMember (T : CType) (_tag : OpTag) : CType := unwrap T

/-- The innermost non-wrapped type of a C++ type, written as structural
recursion peeling every `wrapped` layer — the spec-level notion that
`unwrap` is claimed to compute. -/
def innermostBase : CType → CType
  | .base n => .base n
  | .wrapped W _ => innermostBase W

theorem unwrap_eq_innermostBase : ∀ W : CType, unwrap W = innermostBase W := by
  intro W
  induction W with
  | base n => rfl
  | wrapped T tag ih => simpa [unwrap, innermostBase] using ih

theorem isWrapped_innermostBase : ∀ W : CType, isWrapped (innermostBase W) = false := by
  intro W
  induction W with
  | base n => rfl
  | wrapped T tag ih => simpa [innermostBase] using ih

theorem innermostBase_idem : ∀ W : CType, innermostBase (innermostBase W) = innermostBase W := by
  intro W
  induction W with
  | base n => rfl
  | wrapped T tag ih => simpa [innermostBase] using ih

/-- C4: the mapping `tag_from_op` from the eight supported prefix unary
operator characters to the eight tag structs is injective — two operator
characters produce the same tag type exactly when they are the same
character, so later overload resolution can tell every case apart. -/
theorem tag_from_op_injective :
    ∀ a b : UnaryOp, tag_from_op a = tag_from_op b ↔ a = b := by
  decide

/-- C10: `unwrap` fully normalizes wrapper chains: its result is never
itself an instantiation of `wrapped`; it is idempotent; and the nested
typedef `wrapped<T, Tag>::type` equals the innermost non-wrapped type of
`T`, at every nesting depth of `T`. -/
theorem unwrap_normalizes :
    ∀ W : CType,
      isWrapped (unwrap W) = false ∧
      unwrap (unwrap W) = unwrap W ∧
      ∀ tag : OpTag, wrappedTypeMember W tag = innermostBase W := by
  intro W
  refine ⟨?_, ?_, ?_⟩
  · rw [unwrap_eq_innermostBase]
    exact isWrapped_innermostBase W
  · rw [unwrap_eq_innermostBase, unwrap_eq_innermostBase]
    exact innermostBase_idem W
  · intro _tag
    exact unwrap_eq_innermostBase W

/-- The tag spine of a C++ type: the list of tags of its `wrapped` layers,
innermost (first applied) first. A base type has an empty spine. -/
def tagSpine : CType → List OpTag
  | .base _ => []
  | .wrapped W t => tagSpine W ++ [t]

/-- The inverse direction of `tag_from_op`, used to decode an operator
character back out of a tag type. -/
def op_from_tag : OpTag → UnaryOp
  | .plus_tag => .plus
  | .minus_tag => .minus
  | .amp_tag => .amp
  | .asterisk_tag => .asterisk
  | .increment_tag => .increment
  | .decrement_tag => .decrement
  | .excl_tag => .excl
  | .tilde_tag => .tilde

theorem op_from_tag_tag_from_op : ∀ op : UnaryOp, op_from_tag (tag_from_op op) = op := by
  decide

/-- One step of the type-finder chain: `type_finder_impl<T>::operator OP`
returns a `type_finder_impl<wrapped<T, BOOST_COPS_OPTAG(OP)>>`, so at the
type level applying the operator character `op` to a found type `T`
produces `wrapped<T, tag_from_op op>`. -/
def type_finder_apply (T : CType) (op : UnaryOp) : CType :=
  .wrapped T (tag_from_op op)

/-- Applying a whole sequence of prefix unary operator characters to
`type_finder<T>::f`, in application order (head of the list applied
first): each application goes through one `type_finder_impl` operator. -/
def type_finder_applyOps (T : CType) (ops : List UnaryOp) : CType :=
  ops.foldl type_finder_apply T

theorem type_finder_applyOps_append (T : CType) (l l' : List UnaryOp) :
    type_finder_applyOps T (l ++ l') = type_finder_applyOps (type_finder_applyOps T l) l' := by
  simp [type_finder_applyOps, List.foldl_append]

theorem tagSpine_type_finder_applyOps (T : CType) (ops : List UnaryOp) :
    tagSpine (type_finder_applyOps T ops) = tagSpine T ++ ops.map tag_from_op := by
  induction ops generalizing T with
  | nil => simp [type_finder_applyOps]
  | cons op rest ih =>
      simp [type_finder_applyOps, List.foldl_cons] at ih ⊢
      rw [ih (type_finder_apply T op)]
      simp [type_finder_apply, tagSpine]

theorem innermostBase_type_finder_applyOps (T : CType) (ops : List UnaryOp) :
    innermostBase (type_finder_applyOps T ops) = innermostBase T := by
  induction ops generalizing T with
  | nil => rfl
  | cons op rest ih =>
      simp [type_finder_applyOps, List.foldl_cons] at ih ⊢
      rw [ih (type_finder_apply T op)]
      rfl

/-- C2: applying the operator sequence `op1, ..., opn` to
`type_finder<T>::f` produces a value whose type parameter is the nested
wrapper `wrapped<...wrapped<T, Tag(op1)>..., Tag(opn)>`: the tag spine of
the resulting type is exactly the image of the applied sequence under
`tag_from_op`, in application order, the innermost type is still `T`, and
the encoding is lossless — decoding the spine with `op_from_tag` returns
exactly the applied operator sequence (every tag is drawn from the closed
eight-element `OpTag` type by construction). -/
theorem type_finder_encodes_sequence :
    ∀ (n : String) (ops : List UnaryOp),
      tagSpine (type_finder_applyOps (.base n) ops) = ops.map tag_from_op ∧
      innermostBase (type_finder_applyOps (.base n) ops) = .base n ∧
      (tagSpine (type_finder_applyOps (.base n) ops)).map op_from_tag = ops := by
  intro n ops
  refine ⟨?_, ?_, ?_⟩
  · simpa [tagSpine] using tagSpine_type_finder_applyOps (.base n) ops
  · simpa [innermostBase] using innermostBase_type_finder_applyOps (.base n) ops
  · have h := tagSpine_type_finder_applyOps (.base n) ops
    simp [tagSpine] at h
    rw [h, List.map_map]
    have : (op_from_tag ∘ tag_from_op) = id := by
      funext op
      exact op_from_tag_tag_from_op op
    rw [this, List.map_id]

/-- A runtime value of some instantiation `wrapped<innerType, tag>`: the
static type parameters together with the stored `value` field, whose C++
type is `unwrap<innerType>::type` — the underlying base operand type,
embedded here as an arbitrary Lean type `V`. -/
structure WrappedVal (V : Type) where
  innerType : CType
  tag : OpTag
  value : V

/-- The static C++ type of a runtime wrapped value. -/
def staticType {V : Type} (w : WrappedVal V) : CType :=
  .wrapped w.innerType w.tag

/-- The first `wrapped` constructor: `explicit wrapped(type t) : value(t)`,
building a `wrapped<T, Tag>` directly from an underlying value. -/
def wrappedOfValue {V : Type} (T : CType) (tag : OpTag) (v : V) : WrappedVal V :=
  ⟨T, tag, v⟩

/-- The second `wrapped` constructor:
`explicit wrapped(wrapped<U, Tag2> u) : value(u.value)`, building
`wrapped<wrapped<U, Tag2>, tag>` around an existing wrapped value and
copying its `value` field through. -/
def wrappedOfWrapped {V : Type} (u : WrappedVal V) (tag : OpTag) : WrappedVal V :=
  ⟨staticType u, tag, u.value⟩

/-- One generic wrapping unary operator from
BOOST_COPS_MAKE_WRAPPING_OPERATORS: `operator OP (wrapped<T, Tag> w)`
returns `wrapped<wrapped<T, Tag>, BOOST_COPS_OPTAG(OP)>(w)`. -/
def wrappingOperator {V : Type} (op : UnaryOp) (w : WrappedVal V) : WrappedVal V :=
  wrappedOfWrapped w (tag_from_op op)

/-- Applying a chain of wrapping unary operators to a wrapped value, in
application order (head of the list applied first). -/
def applyWrapOps {V : Type} (ops : List UnaryOp) (w : WrappedVal V) : WrappedVal V :=
  ops.foldl (fun w op => wrappingOperator op w) w

theorem applyWrapOps_value {V : Type} (ops : List UnaryOp) (w : WrappedVal V) :
    (applyWrapOps ops w).value = w.value := by
  induction ops generalizing w with
  | nil => rfl
  | cons op rest ih =>
      simp [applyWrapOps, List.foldl_cons] at ih ⊢
      rw [ih (wrappingOperator op w)]
      rfl

theorem applyWrapOps_staticType {V : Type} (ops : List UnaryOp) (w : WrappedVal V) :
    staticType (applyWrapOps ops w) = type_finder_applyOps (staticType w) ops := by
  induction ops generalizing w with
  | nil => rfl
  | cons op rest ih =>
      simp [applyWrapOps, List.foldl_cons, type_finder_applyOps] at ih ⊢
      rw [ih (wrappingOperator op w)]
      rfl

/-- C8: wrapping preserves the underlying value. Whatever chain of
wrapping unary operators is applied on top of `wrapped<T2, Tag>(b)`, the
outermost wrapper's `value` field is still the original `b`, so the user
implementation function always receives the unmodified second operand. -/
theorem wrap_chain_preserves_value :
    ∀ (V : Type) (T2 : CType) (tag : OpTag) (b : V) (ops : List UnaryOp),
      (applyWrapOps ops (wrappedOfValue T2 tag b)).value = b := by
  intro V T2 tag b ops
  rw [applyWrapOps_value]
  rfl

/-- The entry unary operator that BOOST_CUSTOM_OP(…, binop, ops, firstop,
param2type, …) defines: `operator firstop` on the second operand type
returns `wrapped<param2type, BOOST_TYPEOF(firstop tag_from_op)>(w)`. -/
def customOpEntry {V : Type} (P2 : CType) (lastop : UnaryOp) (b : V) : WrappedVal V :=
  wrappedOfValue P2 (tag_from_op lastop) b

/-- The declared type of the second parameter of the `operator binop`
overload that BOOST_CUSTOM_OP defines:
`BOOST_TYPEOF(ops firstop type_finder<param2type>::f)::type`. The prefix
operators apply right to left, so `firstop` (the operator adjacent to the
operand) applies first and the characters of `ops` follow in
right-to-left textual order. `ops` is given here as the list of operator
characters in left-to-right textual order. -/
def customOpParam2Type (P2 : CType) (ops : List UnaryOp) (lastop : UnaryOp) : CType :=
  type_finder_applyOps P2 (lastop :: ops.reverse)

/-- Runtime evaluation of the custom-operator expression
`a binop ops lastop b`: `lastop b` calls the macro-defined entry unary
operator, each character of `ops` (right to left) calls one generic
wrapping operator, and `binop` calls the macro-defined
`operator binop (param1type a, … b)` whose body is
`return boost_custom_ops_implementation_…(a, b.value);`. The result is
paired with the list of invocations of the programmer-supplied
implementation function, each recorded as its argument pair: only the
binary operator's body contains such a call, and it contains exactly
one. -/
def customOpEval {A V R : Type} (impl : A → V → R) (P2 : CType)
    (ops : List UnaryOp) (lastop : UnaryOp) (a : A) (b : V) : R × List (A × V) :=
  let w := applyWrapOps ops.reverse (customOpEntry P2 lastop b)
  (impl a w.value, [(a, w.value)])

/-- C1: for every custom operator defined with BOOST_CUSTOM_OP and every
pair of operands, evaluating `a binop ops lastop b` invokes the single
programmer-supplied two-argument implementation function exactly once,
on exactly the original operands `(a, b)`, and the expression's result is
that function's result; moreover the static type of the runtime wrapper
chain built from `b` is exactly the declared second-parameter type of the
macro's binary operator overload, so overload resolution selects that
overload. -/
theorem custom_op_dispatch_correct :
    ∀ (A V R : Type) (impl : A → V → R) (P2 : CType)
      (ops : List UnaryOp) (lastop : UnaryOp) (a : A) (b : V),
      customOpEval impl P2 ops lastop a b = (impl a b, [(a, b)]) ∧
      staticType (applyWrapOps ops.reverse (customOpEntry P2 lastop b)) =
        customOpParam2Type P2 ops lastop := by
  intro A V R impl P2 ops lastop a b
  constructor
  · simp [customOpEval, applyWrapOps_value, customOpEntry, wrappedOfValue]
  · rw [applyWrapOps_staticType]
    simp [customOpEntry, customOpParam2Type, wrappedOfValue, staticType,
      type_finder_applyOps, List.foldl_cons, type_finder_apply]

/-- Overloadable C++ binary operator characters accepted as the `binop`
argument of BOOST_CUSTOM_OP ("most C++ binary operators", per the header
documentation; `/`, `|` and the comma appear in its examples). -/
inductive BinaryOp where
  | slash
  | pipe
  | comma
  | plus
  | minus
  | star
  | amp
  | percent
  | caret
  | less
  | greater
  deriving DecidableEq

/-- One character of a compound custom-operator token: either a binary
operator character or a prefix unary operator character. -/
inductive OpChar where
  | binary (b : BinaryOp)
  | unary (u : UnaryOp)
  deriving DecidableEq

/-- The three operator arguments of a BOOST_CUSTOM_OP invocation: the
binary operator `binop`, the intermediate unary operators `ops` (in
left-to-right textual order) and the final unary operator `lastop` —
named `firstop` inside the macro because it is the first to apply. -/
structure CustomOpSpec where
  binop : BinaryOp
  ops : List UnaryOp
  lastop : UnaryOp
  deriving DecidableEq

/-- The compound operator token a BOOST_CUSTOM_OP invocation defines,
e.g. `/~+!-`: the binary operator character followed by the characters of
`ops` and then `lastop`. -/
def customOpToken (d : CustomOpSpec) : List OpChar :=
  OpChar.binary d.binop :: (d.ops ++ [d.lastop]).map OpChar.unary

/-- Whether a token character is a binary operator character. -/
def isBinaryChar : OpChar → Bool
  | .binary _ => true
  | .unary _ => false

/-- Whether a token character is a unary operator character. -/
def isUnaryChar : OpChar → Bool
  | .binary _ => false
  | .unary _ => true

/-- Recognizer for the compound-token shape the spec describes: exactly
one binary operator character followed by a nonempty run of unary
operator characters. -/
def isCompoundOpToken : List OpChar → Bool
  | .binary _ :: rest => !rest.isEmpty && rest.all isUnaryChar
  | _ => false

/-- Partial inverse of the `OpChar.unary` injection. -/
def unaryOf : OpChar → Option UnaryOp
  | .unary u => some u
  | .binary _ => none

theorem filterMap_unaryOf_map (rest : List OpChar) (h : rest.all isUnaryChar = true) :
    (rest.filterMap unaryOf).map OpChar.unary = rest := by
  induction rest with
  | nil => rfl
  | cons c cs ih =>
      simp [List.all_cons] at h
      obtain ⟨hc, hcs⟩ := h
      have hcs' : cs.all isUnaryChar = true := by
        rw [List.all_eq_true]
        exact hcs
      cases c with
      | unary u => simp [List.filterMap_cons, unaryOf, ih hcs']
      | binary b => simp [isUnaryChar] at hc

theorem map_unary_injective :
    ∀ l l' : List UnaryOp, l.map OpChar.unary = l'.map OpChar.unary → l = l' := by
  intro l l' h
  refine List.map_injective_iff.mpr ?_ h
  intro a b hab
  injection hab

/-- C5: a token is definable as a custom operator with the facility
exactly when it consists of one binary operator character followed by a
nonempty run of unary operator characters (the run being `ops` followed
by `lastop`); moreover the decomposition into (binop, ops, lastop) is
unique, so the compound token corresponds to a single logical operator
definition. -/
theorem custom_op_token_grammar :
    (∀ toks : List OpChar,
        (∃ d : CustomOpSpec, customOpToken d = toks) ↔ isCompoundOpToken toks = true) ∧
    (∀ d d' : CustomOpSpec, customOpToken d = customOpToken d' ↔ d = d') := by
  constructor
  · intro toks
    constructor
    · rintro ⟨d, rfl⟩
      simp [customOpToken, isCompoundOpToken, List.all_map, Function.comp, isUnaryChar]
    · intro htoks
      match toks, htoks with
      | .binary b :: rest, htoks =>
          simp [isCompoundOpToken] at htoks
          obtain ⟨hne, hall⟩ := htoks
          have hrest : rest ≠ [] := by
            intro h
            subst h
            simp at hne
          have hall' : rest.all isUnaryChar = true := by
            rw [List.all_eq_true]
            intro x hx
            exact hall x hx
          have hmap := filterMap_unaryOf_map rest hall'
          have hus : rest.filterMap unaryOf ≠ [] := by
            intro h
            rw [h] at hmap
            exact hrest hmap.symm
          refine ⟨⟨b, (rest.filterMap unaryOf).dropLast, (rest.filterMap unaryOf).getLast hus⟩, ?_⟩
          simp only [customOpToken]
          rw [List.dropLast_append_getLast hus, hmap]
  · intro d d'
    constructor
    · intro h
      obtain ⟨b, ops, lastop⟩ := d
      obtain ⟨b', ops', lastop'⟩ := d'
      simp only [customOpToken, List.cons.injEq] at h
      obtain ⟨hb, hrest⟩ := h
      injection hb with hb
      have hOps := map_unary_injective _ _ hrest
      have hlen : ops.length = ops'.length := by
        have := congrArg List.length hOps
        simpa using this
      obtain ⟨h1, h2⟩ := List.append_inj hOps hlen
      injection h2 with h2
      simp [hb, h1, h2]
    · intro h
      rw [h]

/-- Outcome of a memory operation in the embedding: a defined value, or
the undefined behavior of dereferencing a null pointer. -/
inductive MemResult (α : Type) where
  | ok (a : α)
  | nullDeref

/-- Whether a memory operation produced a defined value. -/
def MemResult.isOk {α : Type} : MemResult α → Bool
  | .ok _ => true
  | .nullDeref => false

/-- Dereferencing a pointer (embedded as `Option α`, `none` being null):
a non-null pointer yields the designated object, a null pointer yields a
null dereference — undefined behavior, not a handled error. -/
def derefSem {α : Type} : Option α → MemResult α
  | some a => .ok a
  | none => .nullDeref

/-- The initializer the predicated-constructor macros pass to
`predicated_constructee_storage<obj>`:
`(condition) ? new (&_mem_objLINE) obj params : 0`. Returns the resulting
pointer together with the number of times the `obj` constructor ran;
`construct` stands for the placement-new call `obj params`. -/
def ternaryNew {α : Type} (cond : Bool) (construct : Unit → α) : Option α × Nat :=
  if cond then (some (construct ()), 1) else (none, 0)

/-- The destructor `~predicated_constructee_storage()`:
`if (_t) _t->~T();`. Returns the number of times the `T` destructor ran
at scope exit. -/
def storageDtorRuns {α : Type} : Option α → Nat
  | some _ => 1
  | none => 0

/-- The whole lifetime of one BOOST_PREDICATED_ANONYMOUS_CONSTRUCTOR use:
the guard is initialized from the conditional placement-new, and its
destructor runs at scope exit. Result: (number of `T` constructor runs,
number of `T` destructor runs). -/
def predicatedScope {α : Type} (cond : Bool) (construct : Unit → α) : Nat × Nat :=
  let r := ternaryNew cond construct
  (r.2, storageDtorRuns r.1)

/-- C3: with a true condition, exactly one `T` object is constructed and
its destructor runs exactly once at scope exit; with a false condition,
no constructor and no destructor runs; in every case the destructor is
attempted exactly as many times as construction occurred. -/
theorem predicated_ctor_dtor_balanced :
    ∀ (α : Type) (cond : Bool) (construct : Unit → α),
      predicatedScope cond construct =
        (if cond then 1 else 0, if cond then 1 else 0) ∧
      (predicatedScope cond construct).2 = (predicatedScope cond construct).1 := by
  intro α cond construct
  cases cond <;> simp [predicatedScope, ternaryNew, storageDtorRuns]

/-- `predicated_constructee_storage<T>::operator -> () const`:
`return _t;` — the raw stored pointer is returned unchanged, with no
null check. -/
def pcsArrow {α : Type} (t : Option α) : Option α := t

/-- `predicated_constructee_storage<T>::operator * () const`:
`return *_t;` — the stored pointer is dereferenced with no null check,
so a null `_t` is dereferenced as-is. -/
def pcsStar {α : Type} (t : Option α) : MemResult α := derefSem t

/-- C9: when the condition of BOOST_PREDICATED_CONSTRUCTOR is false, the
pointer stored in `predicated_constructee_storage` is null; the reference
`name`, initialized as `obj& name = *_storage_…`, applies `operator *` to
that null pointer and dereferences null; `operator ->` likewise returns
the null pointer unchecked, so any access through it dereferences null.
Neither accessor performs a null check (`operator ->` returns `_t`
unconditionally; `operator *` dereferences unconditionally). -/
theorem predicated_ctor_false_null_deref :
    ∀ (α : Type) (construct : Unit → α),
      (ternaryNew false construct).1 = none ∧
      pcsStar (ternaryNew false construct).1 = MemResult.nullDeref ∧
      (∀ t : Option α, pcsArrow t = t) ∧
      derefSem (pcsArrow (ternaryNew false construct).1) = MemResult.nullDeref := by
  intro α construct
  refine ⟨rfl, rfl, fun t => rfl, rfl⟩

/-- Size and alignment, in bytes, of a raw storage type. -/
structure StorageSpec where
  size : Nat
  align : Nat
  deriving DecidableEq

/-- Modelled from the spec: `boost::aligned_storage<Size, Align>::type`
is an external Boost dependency, not part of this repository's sources;
by its documented contract it is raw POD storage of size at least `Size`
and alignment exactly `Align`. -/
def aligned_storage (size align : Nat) : StorageSpec :=
  ⟨size, align⟩

/-- One block-scope declaration produced by expanding a predicated
constructor macro at its point of use. The macros expand to a plain
sequence of declarations inside the enclosing scope, so every declared
entity is scope-local. -/
inductive ScopeDecl where
  | storageDecl (spec : StorageSpec)
  | guardDecl (cond : Bool)
  | refDecl
  deriving DecidableEq

/-- Expansion of BOOST_PREDICATED_ANONYMOUS_CONSTRUCTOR(condition, obj,
params): `aligned_storage<sizeof(obj), alignment_of<obj>::value>::type`
raw storage, then the `predicated_constructee_storage<obj>` guard whose
initializer conditionally placement-constructs into that storage. -/
def BOOST_PREDICATED_ANONYMOUS_CONSTRUCTOR (sizeofT alignofT : Nat) (cond : Bool) :
    List ScopeDecl :=
  [.storageDecl (aligned_storage sizeofT alignofT), .guardDecl cond]

/-- Expansion of BOOST_PREDICATED_CONSTRUCTOR(condition, name, obj,
params): as the anonymous form, followed by the reference binding
`obj& name = *_storage_…`. -/
def BOOST_PREDICATED_CONSTRUCTOR (sizeofT alignofT : Nat) (cond : Bool) :
    List ScopeDecl :=
  [.storageDecl (aligned_storage sizeofT alignofT), .guardDecl cond, .refDecl]

/-- The raw-storage declarations of a macro expansion. -/
def storageDecls (l : List ScopeDecl) : List StorageSpec :=
  l.filterMap fun d =>
    match d with
    | .storageDecl s => some s
    | _ => none

/-- C6: both predicated-constructor macros declare, among their
scope-local declarations, exactly one block of raw storage, requested
from `aligned_storage` with size `sizeof(obj)` and alignment
`alignment_of<obj>::value`; the resulting storage has size at least
`sizeof(obj)` and alignment exactly `alignment_of<obj>::value`, so the
conditionally placement-constructed object is correctly aligned. -/
theorem predicated_storage_sized_and_aligned :
    ∀ (sizeofT alignofT : Nat) (cond : Bool),
      storageDecls (BOOST_PREDICATED_ANONYMOUS_CONSTRUCTOR sizeofT alignofT cond) =
        [aligned_storage sizeofT alignofT] ∧
      storageDecls (BOOST_PREDICATED_CONSTRUCTOR sizeofT alignofT cond) =
        [aligned_storage sizeofT alignofT] ∧
      sizeofT ≤ (aligned_storage sizeofT alignofT).size ∧
      (aligned_storage sizeofT alignofT).align = alignofT := by
  intro sizeofT alignofT cond
  refine ⟨rfl, rfl, le_refl _, rfl⟩

/-- Instrumented semantics of one tag factory operator, e.g.
`plus_tag operator + () const { return plus_tag(); }`: outcome paired
with the list of I/O events the body performs (the body is a single
return of a temporary — no I/O, no error path). -/
def tagFactorySem (op : UnaryOp) : MemResult OpTag × List String :=
  (.ok (tag_from_op op), [])

/-- Instrumented semantics of one generic wrapping unary operator: its
body is a single return of `wrapped<wrapped<T, Tag>, OPTAG>(w)`. -/
def wrappingOperatorSem {V : Type} (op : UnaryOp) (w : WrappedVal V) :
    MemResult (WrappedVal V) × List String :=
  (.ok (wrappingOperator op w), [])

/-- Instrumented semantics of the value constructor of `wrapped`. -/
def wrappedCtorSem {V : Type} (T : CType) (tag : OpTag) (v : V) :
    MemResult (WrappedVal V) × List String :=
  (.ok (wrappedOfValue T tag v), [])

/-- Instrumented semantics of the converting constructor of `wrapped`. -/
def wrappedConvCtorSem {V : Type} (u : WrappedVal V) (tag : OpTag) :
    MemResult (WrappedVal V) × List String :=
  (.ok (wrappedOfWrapped u tag), [])

/-- Instrumented semantics of `predicated_constructee_storage::operator ->`:
the body returns the raw pointer `_t` unconditionally. -/
def pcsArrowSem {α : Type} (t : Option α) : MemResult (Option α) × List String :=
  (.ok (pcsArrow t), [])

/-- Instrumented semantics of `predicated_constructee_storage::operator *`:
the body dereferences `_t` unconditionally, so on a null `_t` the outcome
is a null dereference. -/
def pcsStarSem {α : Type} (t : Option α) : MemResult α × List String :=
  (pcsStar t, [])

/-- Instrumented semantics of `~predicated_constructee_storage()`: the
body conditionally invokes `T`'s destructor through a non-null `_t`. -/
def pcsDtorSem {α : Type} (t : Option α) : MemResult Nat × List String :=
  (.ok (storageDtorRuns t), [])

/-- C7 counterexample: the claim that every run-time operation of the
repository is total on all inputs fails on
`predicated_constructee_storage<T>::operator *`: at a null stored pointer
(the state BOOST_PREDICATED_CONSTRUCTOR leaves when its condition is
false) the accessor dereferences null, which is not a defined result. -/
theorem star_accessor_not_total :
    (pcsStarSem (none : Option Nat)).1.isOk = false := rfl

/-- C7 (amended): every run-time operation of the repository — the tag
factory operators, the wrapping unary operators, the `wrapped`
constructors, and the predicated-storage accessors and destructor —
performs no I/O and contains no failure handling (no operation detects,
reports, or recovers from an error condition: `operator *` dereferences
null rather than handling it, `operator ->` passes null through), and
every such operation except `operator *` is total on all inputs;
`operator *` is defined exactly on the non-null stored pointers. -/
theorem runtime_ops_total_no_io_except_star :
    ∀ (V α : Type) (op : UnaryOp) (w : WrappedVal V) (T : CType) (tag : OpTag)
      (v : V) (u : WrappedVal V) (t : Option α),
      ((tagFactorySem op).1.isOk = true ∧ (tagFactorySem op).2 = []) ∧
      ((wrappingOperatorSem op w).1.isOk = true ∧ (wrappingOperatorSem op w).2 = []) ∧
      ((wrappedCtorSem T tag v).1.isOk = true ∧ (wrappedCtorSem T tag v).2 = []) ∧
      ((wrappedConvCtorSem u tag).1.isOk = true ∧ (wrappedConvCtorSem u tag).2 = []) ∧
      ((pcsArrowSem t).1.isOk = true ∧ (pcsArrowSem t).2 = []) ∧
      ((pcsDtorSem t).1.isOk = true ∧ (pcsDtorSem t).2 = []) ∧
      ((pcsStarSem t).1.isOk = t.isSome ∧ (pcsStarSem t).2 = []) ∧
      (pcsArrowSem (none : Option α)).1 = .ok none := by
  intro V α op w T tag v u t
  refine ⟨⟨rfl, rfl⟩, ⟨rfl, rfl⟩, ⟨rfl, rfl⟩, ⟨rfl, rfl⟩, ⟨rfl, rfl⟩, ⟨rfl, rfl⟩, ⟨?_, rfl⟩, rfl⟩
  cases t <;> rfl
